import Mathlib

/-!
Shallow embedding of SpectralImager3D's shared track registry
(`Source/SharedDataManager.h`) and spectral analyzer (`SpectralAnalyzer.h`),
together with theorems settling the specification's claims about them.

Modelling conventions:
* machine integers are `Nat`/`Int`; `uint64` wrap-around is made explicit
  with `% 2 ^ 64` where it can matter (timestamps);
* `float`/`double` arithmetic of the analyzer is modelled over `ℝ`; the
  registry only stores and returns level values (it never computes with
  them), so its levels are modelled as `ℚ` to keep the registry decidable;
* the sequential semantics of the mutex-protected registry operations is
  modelled directly as state-passing functions, and
  `juce::Time::currentTimeMillis()` becomes an explicit `now` argument.
-/

/-- Constant `kMaxTracks` from `SharedDataManager.h`. -/
def kMaxTracks : Nat := 16

/-- Constant `kFFTOrder` from `SharedDataManager.h` (4096-point FFT). -/
def kFFTOrder : Nat := 12

/-- Constant `kFFTSize = 1 << kFFTOrder` from `SharedDataManager.h`. -/
def kFFTSize : Nat := 2 ^ kFFTOrder

/-- Constant `kNumBins = kFFTSize / 2` from `SharedDataManager.h`. -/
def kNumBins : Nat := kFFTSize / 2

/-- Constant `kMaxBands` from `SharedDataManager.h`. -/
def kMaxBands : Nat := 64

/-- Model of `juce::jlimit lowerLimit upperLimit value`: clamp `value` into
`[lowerLimit, upperLimit]` (JUCE evaluates `value < lower ? lower :
upper < value ? upper : value`). -/
def jlimit {α : Type} [LinearOrder α] (lowerLimit upperLimit value : α) : α :=
  if value < lowerLimit then lowerLimit
  else if upperLimit < value then upperLimit
  else value

/-- First index `k < n` (searching upwards from `0`) with `p k = true`.
This mirrors the registry's `for (size_t i = 0; i < kMaxTracks; ++i)` scans
with early `return`/`break`. -/
def firstSat (p : Nat → Bool) : Nat → Option Nat
  | 0 => none
  | n + 1 =>
    match firstSat p n with
    | some j => some j
    | none => if p n then some n else none

theorem firstSat_none_of {p : Nat → Bool} {n : Nat}
    (h : ∀ k, k < n → p k = false) : firstSat p n = none := by
  induction n with
  | zero => rfl
  | succ m ih =>
    have hm : firstSat p m = none := ih fun k hk => h k (Nat.lt_succ_of_lt hk)
    simp [firstSat, hm, h m (Nat.lt_succ_self m)]

theorem forall_of_firstSat_none {p : Nat → Bool} {n : Nat}
    (h : firstSat p n = none) : ∀ k, k < n → p k = false := by
  induction n with
  | zero => intro k hk; omega
  | succ m ih =>
    intro k hk
    simp only [firstSat] at h
    rcases hm : firstSat p m with _ | j
    · rw [hm] at h
      by_cases hp : p m
      · simp [hp] at h
      · rcases Nat.lt_succ_iff_lt_or_eq.mp hk with h1 | h1
        · exact ih hm k h1
        · subst h1; simpa using hp
    · rw [hm] at h; simp at h

theorem firstSat_some_spec {p : Nat → Bool} {n j : Nat}
    (h : firstSat p n = some j) :
    j < n ∧ p j = true ∧ ∀ k, k < j → p k = false := by
  induction n with
  | zero => simp [firstSat] at h
  | succ m ih =>
    simp only [firstSat] at h
    rcases hm : firstSat p m with _ | j'
    · rw [hm] at h
      by_cases hp : p m
      · simp [hp] at h
        subst h
        exact ⟨Nat.lt_succ_self m, hp, forall_of_firstSat_none hm⟩
      · simp [hp] at h
    · rw [hm] at h
      simp at h
      subst h
      obtain ⟨h1, h2, h3⟩ := ih hm
      exact ⟨Nat.lt_succ_of_lt h1, h2, h3⟩

theorem firstSat_some_of {p : Nat → Bool} {n j : Nat}
    (hj : j < n) (hp : p j = true) (hmin : ∀ k, k < j → p k = false) :
    firstSat p n = some j := by
  induction n with
  | zero => omega
  | succ m ih =>
    by_cases hjm : j < m
    · simp [firstSat, ih hjm]
    · have hje : j = m := by omega
      subst hje
      have hnone : firstSat p j = none := firstSat_none_of hmin
      simp [firstSat, hnone, hp]

/-- Wrap-around `uint64` subtraction `a - b`, as evaluated by
`now - tracks[i].lastUpdate.load()` in `cleanupStale`. -/
def sub64 (a b : Nat) : Nat := (a % 2 ^ 64 + (2 ^ 64 - b % 2 ^ 64)) % 2 ^ 64

theorem sub64_eq_sub {a b : Nat} (hb : b ≤ a) (ha : a < 2 ^ 64) :
    sub64 a b = a - b := by
  have hb' : b < 2 ^ 64 := lt_of_le_of_lt hb ha
  unfold sub64
  rw [Nat.mod_eq_of_lt ha, Nat.mod_eq_of_lt hb']
  have h1 : a + (2 ^ 64 - b) = (a - b) + 2 ^ 64 := by omega
  rw [h1, Nat.add_mod_right, Nat.mod_eq_of_lt (by omega)]

/-- Slot record `TrackData` from `SharedDataManager.h`.  The `std::array<BandInfo,
kMaxBands> bands` is modelled as a function (indices `< kMaxBands`
meaningful); each `BandInfo`'s atomic `leftLevel`/`rightLevel` pair becomes
a `ℚ × ℚ` value; the remaining atomics become plain fields of the
sequential model.  C++ default member initializers give `TrackData.init`. -/
@[ext]
structure TrackData where
  bands : Nat → ℚ × ℚ
  colorARGB : Nat
  isActive : Bool
  lastUpdate : Nat
  instanceId : Nat
  numBands : Int

/-- Default-constructed `TrackData` (`leftLevel = rightLevel = 0`,
`colorARGB = 0xFF00FFFF`, `isActive = false`, `lastUpdate = 0`,
`instanceId = 0`, `numBands = 24`). -/
def TrackData.init : TrackData :=
  { bands := fun _ => (0, 0)
    colorARGB := 0xFF00FFFF
    isActive := false
    lastUpdate := 0
    instanceId := 0
    numBands := 24 }

/-- Model of `TrackData::getBand(i, left, right)`: the C++ takes `left`/`right` by
reference and only assigns them when `i < kMaxBands`; the model takes the
caller's current values and returns their values after the call. -/
def TrackData.getBand (t : TrackData) (i : Nat) (left right : ℚ) : ℚ × ℚ :=
  if i < kMaxBands then ((t.bands i).1, (t.bands i).2) else (left, right)

/-- Model of `TrackData::setBand(i, left, right)`. -/
def TrackData.setBand (t : TrackData) (i : Nat) (left right : ℚ) : TrackData :=
  if i < kMaxBands then { t with bands := Function.update t.bands i (left, right) }
  else t

/-- Registry state of `SharedDataManager`: the fixed `std::array<TrackData, kMaxTracks>
tracks`, modelled as a function (indices `< kMaxTracks` meaningful).  The
mutex is not represented: the claims are about the sequential semantics of
the lock-protected bodies. -/
structure SharedDataManager where
  tracks : Nat → TrackData

/-- Freshly constructed manager: all slots default-constructed. -/
def SharedDataManager.init : SharedDataManager := ⟨fun _ => TrackData.init⟩

/-- Model of `SharedDataManager::registerSender(id)`: first scan for a slot already
bound to `id`; otherwise claim the first inactive slot (binding `id`,
activating it and stamping `lastUpdate` with the current time); return
`-1` when every slot is active. -/
def SharedDataManager.registerSender (s : SharedDataManager) (id now : Nat) :
    Int × SharedDataManager :=
  match firstSat (fun i => (s.tracks i).instanceId == id) kMaxTracks with
  | some i => ((i : Int), s)
  | none =>
    match firstSat (fun i => !(s.tracks i).isActive) kMaxTracks with
    | some i =>
      ((i : Int),
        ⟨Function.update s.tracks i
          { s.tracks i with instanceId := id, isActive := true,
                            lastUpdate := now % 2 ^ 64 }⟩)
    | none => (-1, s)

/-- Model of `SharedDataManager::unregisterSender(id)`: deactivate and clear the
first slot bound to `id` (the loop `break`s after the first match). -/
def SharedDataManager.unregisterSender (s : SharedDataManager) (id : Nat) :
    SharedDataManager :=
  match firstSat (fun i => (s.tracks i).instanceId == id) kMaxTracks with
  | some i =>
    ⟨Function.update s.tracks i { s.tracks i with isActive := false, instanceId := 0 }⟩
  | none => s

/-- Model of `SharedDataManager::getTrack(i)`: index clamped by
`juce::jlimit(0, kMaxTracks - 1, i)`. -/
def SharedDataManager.getTrack (s : SharedDataManager) (i : Int) : TrackData :=
  s.tracks (jlimit 0 ((kMaxTracks : Int) - 1) i).toNat

/-- Model of `SharedDataManager::getActiveCount()`: count of active slots. -/
def SharedDataManager.getActiveCount (s : SharedDataManager) : Nat :=
  ((Finset.range kMaxTracks).filter (fun i => (s.tracks i).isActive = true)).card

/-- Model of `SharedDataManager::updateTimestamp(slot)`: for an in-range slot, stamp
`lastUpdate` with the current time and re-assert `isActive` when the flag
was found cleared. -/
def SharedDataManager.updateTimestamp (s : SharedDataManager) (slot : Int) (now : Nat) :
    SharedDataManager :=
  if 0 ≤ slot ∧ slot < (kMaxTracks : Int) then
    let j := slot.toNat
    let t1 := { s.tracks j with lastUpdate := now % 2 ^ 64 }
    let t2 := if !t1.isActive then { t1 with isActive := true } else t1
    ⟨Function.update s.tracks j t2⟩
  else s

/-- Model of `SharedDataManager::cleanupStale(timeout)`: deactivate and clear every
active slot whose `uint64` age `now - lastUpdate` exceeds `timeout`.  The
loop body only reads and writes slot `i`, so the in-place sweep is modelled
pointwise. -/
def SharedDataManager.cleanupStale (s : SharedDataManager) (timeout now : Nat) :
    SharedDataManager :=
  ⟨fun i =>
    if i < kMaxTracks ∧ (s.tracks i).isActive = true ∧
        timeout < sub64 now (s.tracks i).lastUpdate then
      { s.tracks i with isActive := false, instanceId := 0 }
    else s.tracks i⟩


theorem registerSender_owned (s : SharedDataManager) (id now j : Nat)
    (hj : j < kMaxTracks) (hid : (s.tracks j).instanceId = id)
    (hmin : ∀ k, k < j → (s.tracks k).instanceId ≠ id) :
    s.registerSender id now = ((j : Int), s) := by
  have hp : (fun i => (s.tracks i).instanceId == id) j = true := by simp [hid]
  have hmin' : ∀ k, k < j → (fun i => (s.tracks i).instanceId == id) k = false := by
    intro k hk
    simp [hmin k hk]
  have h := firstSat_some_of hj hp hmin'
  unfold SharedDataManager.registerSender
  rw [h]

theorem registerSender_idempotent (s : SharedDataManager) (id now1 now2 : Nat) :
    ((s.registerSender id now1).2.registerSender id now2).1 =
      (s.registerSender id now1).1 ∧
    (∀ j, j < kMaxTracks → (s.tracks j).instanceId = id →
      (∀ k, k < j → (s.tracks k).instanceId ≠ id) →
      s.registerSender id now1 = ((j : Int), s)) := by
  refine ⟨?_, fun j hj hid hmin => registerSender_owned s id now1 j hj hid hmin⟩
  rcases h1 : firstSat (fun i => (s.tracks i).instanceId == id) kMaxTracks with _ | j
  · have hall : ∀ k, k < kMaxTracks → (s.tracks k).instanceId ≠ id := by
      intro k hk
      simpa using forall_of_firstSat_none h1 k hk
    rcases h2 : firstSat (fun i => !(s.tracks i).isActive) kMaxTracks with _ | k
    · have hfst : s.registerSender id now1 = (-1, s) := by
        unfold SharedDataManager.registerSender
        rw [h1, h2]
      rw [hfst]
      have hsnd : s.registerSender id now2 = (-1, s) := by
        unfold SharedDataManager.registerSender
        rw [h1, h2]
      rw [hsnd]
    · obtain ⟨hk16, hkact, hkmin⟩ := firstSat_some_spec h2
      have hfst : s.registerSender id now1 = ((k : Int),
          (⟨Function.update s.tracks k
            { s.tracks k with instanceId := id, isActive := true,
                              lastUpdate := now1 % 2 ^ 64 }⟩ : SharedDataManager)) := by
        unfold SharedDataManager.registerSender
        rw [h1, h2]
      rw [hfst]
      have howned := registerSender_owned
        (⟨Function.update s.tracks k
          { s.tracks k with instanceId := id, isActive := true,
                            lastUpdate := now1 % 2 ^ 64 }⟩ : SharedDataManager)
        id now2 k hk16
        (by simp)
        (by
          intro k' hk'
          show (Function.update s.tracks k _ k').instanceId ≠ id
          rw [Function.update_noteq (Nat.ne_of_lt hk')]
          exact hall k' (Nat.lt_trans hk' hk16))
      rw [howned]
  · obtain ⟨hj16, hpj, hmin⟩ := firstSat_some_spec h1
    have hid : (s.tracks j).instanceId = id := by simpa using hpj
    have hmin' : ∀ k, k < j → (s.tracks k).instanceId ≠ id := by
      intro k hk
      simpa using hmin k hk
    have h := registerSender_owned s id now1 j hj16 hid hmin'
    rw [h]
    simp only
    rw [registerSender_owned s id now2 j hj16 hid hmin']

theorem registerSender_idempotent_witness :
    (SharedDataManager.init.registerSender 7 0).2.registerSender 7 5 =
      ((0 : Int), (SharedDataManager.init.registerSender 7 0).2) := by
  have h := registerSender_idempotent (SharedDataManager.init.registerSender 7 0).2 7 5 5
  exact h.2 0 (by decide) (by decide) (fun k hk => absurd hk (Nat.not_lt_zero k))

/-- Fully-occupied registry used by the C3 witness: slot `i` holds an
active producer with `instanceId = i + 1`. -/
def fullRegistry : SharedDataManager :=
  ⟨fun i => { TrackData.init with isActive := true, instanceId := i + 1 }⟩

/-- C3: with every slot active and `id` fresh, `registerSender` returns
`-1` and leaves the registry unchanged; unregistering the unique owner
`j` of `id2` frees exactly slot `j` (all other slots untouched); a
subsequent registration of a fresh `id3` succeeds and returns `j`. -/
theorem registerSender_capacity (s : SharedDataManager) (id id2 id3 now now2 j : Nat)
    (hact : ∀ i, i < kMaxTracks → (s.tracks i).isActive = true)
    (hfresh : ∀ i, i < kMaxTracks → (s.tracks i).instanceId ≠ id)
    (hj : j < kMaxTracks) (hown : (s.tracks j).instanceId = id2)
    (huniq : ∀ k, k < kMaxTracks → k ≠ j → (s.tracks k).instanceId ≠ id2)
    (hfresh3 : ∀ i, i < kMaxTracks →
      ((s.unregisterSender id2).tracks i).instanceId ≠ id3) :
    s.registerSender id now = (-1, s) ∧
    ((s.unregisterSender id2).tracks j).isActive = false ∧
    (∀ k, k ≠ j → (s.unregisterSender id2).tracks k = s.tracks k) ∧
    ((s.unregisterSender id2).registerSender id3 now2).1 = (j : Int) := by
  have h1 : firstSat (fun i => (s.tracks i).instanceId == id) kMaxTracks = none := by
    apply firstSat_none_of
    intro k hk
    simp [hfresh k hk]
  have h2 : firstSat (fun i => !(s.tracks i).isActive) kMaxTracks = none := by
    apply firstSat_none_of
    intro k hk
    simp [hact k hk]
  have hc1 : s.registerSender id now = (-1, s) := by
    unfold SharedDataManager.registerSender
    rw [h1, h2]
  have hj2 : firstSat (fun i => (s.tracks i).instanceId == id2) kMaxTracks = some j := by
    apply firstSat_some_of hj (by simp [hown])
    intro k hk
    simp [huniq k (Nat.lt_trans hk hj) (Nat.ne_of_lt hk)]
  have hunreg : s.unregisterSender id2 =
      ⟨Function.update s.tracks j
        { s.tracks j with isActive := false, instanceId := 0 }⟩ := by
    unfold SharedDataManager.unregisterSender
    rw [hj2]
  refine ⟨hc1, ?_, ?_, ?_⟩
  · rw [hunreg]
    simp
  · intro k hk
    rw [hunreg]
    simp [Function.update_noteq hk]
  · have h3 : firstSat
        (fun i => ((s.unregisterSender id2).tracks i).instanceId == id3) kMaxTracks
          = none := by
      apply firstSat_none_of
      intro k hk
      simp [hfresh3 k hk]
    have h4 : firstSat
        (fun i => !((s.unregisterSender id2).tracks i).isActive) kMaxTracks = some j := by
      apply firstSat_some_of hj
      · rw [hunreg]
        simp
      · intro k hk
        rw [hunreg]
        simp [Function.update_noteq (Nat.ne_of_lt hk), hact k (Nat.lt_trans hk hj)]
    unfold SharedDataManager.registerSender
    rw [h3, h4]

/-- Witness for C3 at a concrete full registry (`fullRegistry`): a fresh
id `100` is rejected with the registry unchanged, and after unregistering
id `5` (slot 4) a fresh id `200` lands in slot 4. -/
theorem registerSender_capacity_witness :
    fullRegistry.registerSender 100 1 = (-1, fullRegistry) ∧
    ((fullRegistry.unregisterSender 5).registerSender 200 2).1 = (4 : Int) := by
  have h := registerSender_capacity fullRegistry 100 5 200 1 2 4
    (by decide) (by decide) (by decide) (by decide) (by decide) (by decide)
  exact ⟨h.1, h.2.2.2⟩

/-- C4: for an in-range slot, `updateTimestamp` stores the fresh timestamp,
re-asserts `isActive`, and modifies no other field of any slot. -/
theorem updateTimestamp_refreshes (s : SharedDataManager) (slot : Int) (now : Nat)
    (h0 : 0 ≤ slot) (h1 : slot < (kMaxTracks : Int)) :
    ((s.updateTimestamp slot now).tracks slot.toNat).lastUpdate = now % 2 ^ 64 ∧
    ((s.updateTimestamp slot now).tracks slot.toNat).isActive = true ∧
    ((s.updateTimestamp slot now).tracks slot.toNat).bands =
      (s.tracks slot.toNat).bands ∧
    ((s.updateTimestamp slot now).tracks slot.toNat).colorARGB =
      (s.tracks slot.toNat).colorARGB ∧
    ((s.updateTimestamp slot now).tracks slot.toNat).instanceId =
      (s.tracks slot.toNat).instanceId ∧
    ((s.updateTimestamp slot now).tracks slot.toNat).numBands =
      (s.tracks slot.toNat).numBands ∧
    (∀ k, k ≠ slot.toNat → (s.updateTimestamp slot now).tracks k = s.tracks k) := by
  have key : (s.updateTimestamp slot now).tracks slot.toNat =
      { s.tracks slot.toNat with lastUpdate := now % 2 ^ 64, isActive := true } := by
    unfold SharedDataManager.updateTimestamp
    rw [if_pos ⟨h0, h1⟩]
    by_cases hact : (s.tracks slot.toNat).isActive
    · simp only [hact, Bool.not_true, Bool.false_eq_true, if_false, Function.update_same]
    · simp only [Bool.not_eq_true] at hact
      simp only [hact, Bool.not_false, if_true, Function.update_same]
  have koth : ∀ k, k ≠ slot.toNat → (s.updateTimestamp slot now).tracks k = s.tracks k := by
    intro k hk
    unfold SharedDataManager.updateTimestamp
    rw [if_pos ⟨h0, h1⟩]
    simp [Function.update_noteq hk]
  exact ⟨by rw [key], by rw [key], by rw [key], by rw [key], by rw [key], by rw [key], koth⟩

/-- Witness for C4 at slot 3 of the fresh registry with `now = 42`. -/
theorem updateTimestamp_refreshes_witness :
    ((SharedDataManager.init.updateTimestamp 3 42).tracks 3).lastUpdate = 42 % 2 ^ 64 ∧
    ((SharedDataManager.init.updateTimestamp 3 42).tracks 3).isActive = true := by
  have h := updateTimestamp_refreshes SharedDataManager.init 3 42 (by decide) (by decide)
  exact ⟨h.1, h.2.1⟩

/-- C5: `getTrack` clamps its index: negative indices yield slot `0`,
in-range indices yield the slot itself, indices `≥ kMaxTracks` yield the
last slot; it never fails. -/
theorem getTrack_clamps (s : SharedDataManager) (i : Int) :
    (i < 0 → s.getTrack i = s.tracks 0) ∧
    (0 ≤ i → i < (kMaxTracks : Int) → s.getTrack i = s.tracks i.toNat) ∧
    ((kMaxTracks : Int) ≤ i → s.getTrack i = s.tracks (kMaxTracks - 1)) := by
  unfold SharedDataManager.getTrack jlimit
  refine ⟨?_, ?_, ?_⟩
  · intro h
    rw [if_pos h]
    simp
  · intro hge hlt
    rw [if_neg (by omega), if_neg (by omega)]
  · intro h
    rw [if_neg (by omega), if_pos (by omega)]
    congr 1

/-- Witness for C5 at indices `-5`, `3` and `99` of the fresh registry. -/
theorem getTrack_clamps_witness :
    SharedDataManager.init.getTrack (-5) = SharedDataManager.init.tracks 0 ∧
    SharedDataManager.init.getTrack 3 = SharedDataManager.init.tracks 3 ∧
    SharedDataManager.init.getTrack 99 = SharedDataManager.init.tracks (kMaxTracks - 1) := by
  exact ⟨(getTrack_clamps SharedDataManager.init (-5)).1 (by decide),
         (getTrack_clamps SharedDataManager.init 3).2.1 (by decide) (by decide),
         (getTrack_clamps SharedDataManager.init 99).2.2 (by decide)⟩

/-- Registry with one stale and one fresh active producer, used by the C6
witness. -/
def staleRegistry : SharedDataManager :=
  ⟨fun i =>
    if i = 0 then { TrackData.init with isActive := true, instanceId := 1, lastUpdate := 10 }
    else if i = 1 then
      { TrackData.init with isActive := true, instanceId := 2, lastUpdate := 900 }
    else TrackData.init⟩

/-- C6: after `cleanupStale timeout now`, an active slot whose age exceeds
`timeout` is deactivated with its `instanceId` cleared (every other field
of it untouched), an active slot within `timeout` is untouched, and
inactive slots are untouched. -/
theorem cleanupStale_reclaims (s : SharedDataManager) (timeout now : Nat)
    (hnow : now < 2 ^ 64)
    (hts : ∀ i, i < kMaxTracks → (s.tracks i).lastUpdate ≤ now) :
    (∀ i, i < kMaxTracks → (s.tracks i).isActive = true →
      (timeout < now - (s.tracks i).lastUpdate →
        (s.cleanupStale timeout now).tracks i =
          { s.tracks i with isActive := false, instanceId := 0 }) ∧
      (now - (s.tracks i).lastUpdate ≤ timeout →
        (s.cleanupStale timeout now).tracks i = s.tracks i)) ∧
    (∀ i, (s.tracks i).isActive = false →
      (s.cleanupStale timeout now).tracks i = s.tracks i) := by
  constructor
  · intro i hi hact
    have hsub : sub64 now (s.tracks i).lastUpdate = now - (s.tracks i).lastUpdate :=
      sub64_eq_sub (hts i hi) hnow
    constructor
    · intro hstale
      show (if i < kMaxTracks ∧ (s.tracks i).isActive = true ∧
          timeout < sub64 now (s.tracks i).lastUpdate then
          { s.tracks i with isActive := false, instanceId := 0 }
        else s.tracks i) = _
      rw [if_pos ⟨hi, hact, by rw [hsub]; exact hstale⟩]
    · intro hfresh
      show (if i < kMaxTracks ∧ (s.tracks i).isActive = true ∧
          timeout < sub64 now (s.tracks i).lastUpdate then
          { s.tracks i with isActive := false, instanceId := 0 }
        else s.tracks i) = _
      rw [if_neg (by rw [hsub]; omega)]
  · intro i hact
    show (if i < kMaxTracks ∧ (s.tracks i).isActive = true ∧
        timeout < sub64 now (s.tracks i).lastUpdate then
        { s.tracks i with isActive := false, instanceId := 0 }
      else s.tracks i) = _
    rw [if_neg (by simp [hact])]

/-- Witness for C6 on `staleRegistry` with `now = 1000`, `timeout = 500`:
slot 0 (age 990) is reclaimed, slot 1 (age 100) survives, inactive slot 7
is untouched. -/
theorem cleanupStale_reclaims_witness :
    (staleRegistry.cleanupStale 500 1000).tracks 0 =
      { staleRegistry.tracks 0 with isActive := false, instanceId := 0 } ∧
    (staleRegistry.cleanupStale 500 1000).tracks 1 = staleRegistry.tracks 1 ∧
    (staleRegistry.cleanupStale 500 1000).tracks 7 = staleRegistry.tracks 7 := by
  have h := cleanupStale_reclaims staleRegistry 500 1000 (by decide) (by decide)
  exact ⟨(h.1 0 (by decide) (by decide)).1 (by decide),
         (h.1 1 (by decide) (by decide)).2 (by decide),
         h.2 7 (by decide)⟩

/-- C10: `TrackData.setBand`/`getBand` with an index `≥ kMaxBands` are
no-ops (`getBand` leaves the caller's output variables untouched), and
with an in-range index they access exactly band `i`. -/
theorem trackData_band_bounds (t : TrackData) (i : Nat) (l r left right : ℚ) :
    (kMaxBands ≤ i →
      t.setBand i l r = t ∧ t.getBand i left right = (left, right)) ∧
    (i < kMaxBands →
      (t.setBand i l r).bands i = (l, r) ∧
      (∀ j, j ≠ i → (t.setBand i l r).bands j = t.bands j) ∧
      t.getBand i left right = ((t.bands i).1, (t.bands i).2)) := by
  constructor
  · intro h
    have hn : ¬ i < kMaxBands := by omega
    unfold TrackData.setBand TrackData.getBand
    rw [if_neg hn, if_neg hn]
    exact ⟨rfl, rfl⟩
  · intro h
    unfold TrackData.setBand TrackData.getBand
    rw [if_pos h, if_pos h]
    refine ⟨by simp, fun j hj => by simp [Function.update_noteq hj], rfl⟩

/-- Witness for C10: out-of-range index `100` is a no-op on the default
slot, and in-range index `3` hits exactly band `3`. -/
theorem trackData_band_bounds_witness :
    TrackData.init.setBand 100 1 2 = TrackData.init ∧
    TrackData.init.getBand 100 5 6 = (5, 6) ∧
    (TrackData.init.setBand 3 1 2).bands 3 = (1, 2) := by
  have h1 := trackData_band_bounds TrackData.init 100 1 2 5 6
  have h3 := trackData_band_bounds TrackData.init 3 1 2 5 6
  exact ⟨(h1.1 (by decide)).1, (h1.1 (by decide)).2, (h3.2 (by decide)).1⟩

/-- Analyzer state from `SpectralAnalyzer.h`: per-channel ring buffers
(`std::vector<float>` of size `kFFTSize`, modelled as functions with
indices `< kFFTSize` meaningful), the band-edge tables
(`std::array<float, kMaxBands + 1>`), the published results
(`std::array<BandResult, kMaxBands>`, one `ℝ × ℝ` per band), the ring
position, the hop counter, the active band count and the sample rate.
`float`/`double` arithmetic is modelled over `ℝ`. -/
structure SpectralAnalyzer where
  leftBuf : Nat → ℝ
  rightBuf : Nat → ℝ
  bandBinsFloat : Nat → ℝ
  bandFreqs : Nat → ℝ
  results : Nat → ℝ × ℝ
  writePos : Nat
  sampleCount : Nat
  activeBands : Nat
  sampleRate : ℝ

noncomputable section

/-- Band edge frequency `i` computed by `calcBands`: log-spaced between
20 Hz and 20 kHz, `freq = 10 ^ (logMin + t * (logMax - logMin))` with
`t = i / activeBands`. -/
def bandFreq (numBands i : Nat) : ℝ :=
  (10 : ℝ) ^ (Real.logb 10 20 +
    ((i : ℝ) / (numBands : ℝ)) * (Real.logb 10 20000 - Real.logb 10 20))

/-- Fractional bin position of band edge `i` computed by `calcBands`:
`binFloat = freq * kFFTSize / sampleRate`. -/
def bandEdge (numBands : Nat) (sr : ℝ) (i : Nat) : ℝ :=
  bandFreq numBands i * (kFFTSize : ℝ) / sr

/-- Model of `SpectralAnalyzer::calcBands()`: recompute entries `0 .. activeBands`
of `bandBinsFloat` and `bandFreqs`; entries above the loop bound keep
their previous values, as in the C++ arrays. -/
def SpectralAnalyzer.calcBands (st : SpectralAnalyzer) : SpectralAnalyzer :=
  { st with
    bandBinsFloat := fun i =>
      if i ≤ st.activeBands then bandEdge st.activeBands st.sampleRate i
      else st.bandBinsFloat i,
    bandFreqs := fun i =>
      if i ≤ st.activeBands then bandFreq st.activeBands i else st.bandFreqs i }

/-- Model of `SpectralAnalyzer::setNumBands(n)`:
`activeBands = juce::jlimit(12, (int) kMaxBands, n); calcBands();`. -/
def SpectralAnalyzer.setNumBands (st : SpectralAnalyzer) (n : Int) : SpectralAnalyzer :=
  SpectralAnalyzer.calcBands
    { st with activeBands := (jlimit 12 (kMaxBands : Int) n).toNat }

/-- Model of `SpectralAnalyzer::clear()`: zero both ring buffers, reset the ring
position and hop counter, reset every `BandResult`. -/
def SpectralAnalyzer.clear (st : SpectralAnalyzer) : SpectralAnalyzer :=
  { st with leftBuf := fun _ => 0, rightBuf := fun _ => 0, writePos := 0,
            sampleCount := 0, results := fun _ => (0, 0) }

/-- The constructor's state: zeroed buffers and results, `activeBands = 24`
(field initializer), `sampleRate = 44100`, then `calcBands()`. -/
def SpectralAnalyzer.init : SpectralAnalyzer :=
  SpectralAnalyzer.calcBands
    { leftBuf := fun _ => 0
      rightBuf := fun _ => 0
      bandBinsFloat := fun _ => 0
      bandFreqs := fun _ => 0
      results := fun _ => (0, 0)
      writePos := 0
      sampleCount := 0
      activeBands := 24
      sampleRate := 44100 }

/-- Modelled from the spec: the symmetric Hann window value applied by
`juce::dsp::WindowingFunction<float>(kFFTSize, hann)` — "a smooth tapering
window (e.g. Hann)".  The JUCE implementation is not part of this
repository. -/
def hannWindow (i : Nat) : ℝ :=
  0.5 * (1 - Real.cos (2 * Real.pi * (i : ℝ) / ((kFFTSize : ℝ) - 1)))

/-- Modelled from the spec:
`juce::dsp::FFT::performFrequencyOnlyForwardTransform` (not part of this
repository) — "a magnitude-only forward frequency transform": bin `k`
holds the magnitude of the `k`-th DFT coefficient of the input. -/
def dftMag (v : Nat → ℝ) (k : Nat) : ℝ :=
  Real.sqrt
    ((∑ i ∈ Finset.range kFFTSize,
        v i * Real.cos (2 * Real.pi * (k : ℝ) * (i : ℝ) / (kFFTSize : ℝ))) ^ 2 +
     (∑ i ∈ Finset.range kFFTSize,
        v i * Real.sin (2 * Real.pi * (k : ℝ) * (i : ℝ) / (kFFTSize : ℝ))) ^ 2)

/-- The analysis pass's input assembly: the most recent `kFFTSize` samples
in chronological order (`idx = (writePos + i) % kFFTSize`), multiplied by
the window table. -/
def windowedBuf (writePos : Nat) (buf : Nat → ℝ) : Nat → ℝ :=
  fun i => hannWindow i * buf ((writePos + i) % kFFTSize)

/-- The `startBinF` value `bandBinsFloat[band]` read by `analyze`. -/
def bandStartEdge (st : SpectralAnalyzer) (band : Nat) : ℝ := st.bandBinsFloat band

/-- The `endBinF` value `bandBinsFloat[band + 1]` read by `analyze`. -/
def bandEndEdge (st : SpectralAnalyzer) (band : Nat) : ℝ := st.bandBinsFloat (band + 1)

/-- Overlap weight of FFT bin `bin` with the band `[startBinF, endBinF]`:
`max(0, min(bin + 0.5, endBinF) - max(bin - 0.5, startBinF))`. -/
def bandWeight (startBinF endBinF : ℝ) (bin : Int) : ℝ :=
  max 0 (min ((bin : ℝ) + 0.5) endBinF - max ((bin : ℝ) - 0.5) startBinF)

/-- The bin range scanned for a band:
`max(1, floor(startBinF)) .. min(kNumBins - 1, ceil(endBinF))`. -/
def bandBinRange (startBinF endBinF : ℝ) : Finset Int :=
  Finset.Icc (max 1 ⌊startBinF⌋) (min ((kNumBins : Int) - 1) ⌈endBinF⌉)

/-- Weighted energy accumulated over a band's bin range (the loop's
`leftEnergy`/`rightEnergy` accumulator: `lMag * lMag * weight` summed over
bins with positive weight, with `lMag = mag[bin] * fftNorm`). -/
def bandEnergySum (mag : Nat → ℝ) (fftNorm startBinF endBinF : ℝ) : ℝ :=
  ∑ bin ∈ bandBinRange startBinF endBinF,
    if 0 < bandWeight startBinF endBinF bin then
      (mag bin.toNat * fftNorm) * (mag bin.toNat * fftNorm) *
        bandWeight startBinF endBinF bin
    else 0

/-- Total overlap weight accumulated over a band's bin range (the loop's
`totalWeight` accumulator). -/
def bandWeightSum (startBinF endBinF : ℝ) : ℝ :=
  ∑ bin ∈ bandBinRange startBinF endBinF,
    if 0 < bandWeight startBinF endBinF bin then bandWeight startBinF endBinF bin
    else 0

/-- Band RMS: mean energy (divided by `totalWeight` when positive), then
square root. -/
def bandRMS (mag : Nat → ℝ) (fftNorm startBinF endBinF : ℝ) : ℝ :=
  Real.sqrt
    (if 0 < bandWeightSum startBinF endBinF then
      bandEnergySum mag fftNorm startBinF endBinF / bandWeightSum startBinF endBinF
    else bandEnergySum mag fftNorm startBinF endBinF)

/-- Model of `SpectralAnalyzer::analyze()`: window and transform both channels,
accumulate interpolated band energy, convert to RMS, apply the pink-noise
compensation `jlimit(0.3, 3.0, sqrt(centerFreq / 1000))`, and smooth into
`results` with `level = level * 0.88 + newRMS * (1 - 0.88)`.  Only
`results` changes. -/
def SpectralAnalyzer.analyze (st : SpectralAnalyzer) : SpectralAnalyzer :=
  { st with
    results := fun band =>
      if band < st.activeBands then
        let leftRMS := bandRMS (dftMag (windowedBuf st.writePos st.leftBuf))
          (4 / (kFFTSize : ℝ)) (bandStartEdge st band) (bandEndEdge st band)
        let rightRMS := bandRMS (dftMag (windowedBuf st.writePos st.rightBuf))
          (4 / (kFFTSize : ℝ)) (bandStartEdge st band) (bandEndEdge st band)
        let pinkComp := jlimit (0.3 : ℝ) 3
          (Real.sqrt ((st.bandFreqs band + st.bandFreqs (band + 1)) * 0.5 / 1000))
        ((st.results band).1 * 0.88 + leftRMS * pinkComp * (1 - 0.88),
         (st.results band).2 * 0.88 + rightRMS * pinkComp * (1 - 0.88))
      else st.results band }

/-- The state `st1` after the write part of one iteration of `process`'s
sample loop: both channels written into the ring buffers, `writePos`
advanced modulo `kFFTSize`, `sampleCount` incremented. -/
def stepWrite (st : SpectralAnalyzer) (l r : ℝ) : SpectralAnalyzer :=
  { st with
    leftBuf := Function.update st.leftBuf st.writePos l,
    rightBuf := Function.update st.rightBuf st.writePos r,
    writePos := (st.writePos + 1) % kFFTSize,
    sampleCount := st.sampleCount + 1 }

/-- One iteration of `process`'s sample loop: write both channels into the
ring buffers, advance `writePos` modulo `kFFTSize`, increment
`sampleCount`; on reaching `kFFTSize / 4`, run `analyze()`, reset the
counter and report a pass. -/
def SpectralAnalyzer.stepSample (st : SpectralAnalyzer) (l r : ℝ) :
    SpectralAnalyzer × Bool :=
  let st1 := stepWrite st l r
  if kFFTSize / 4 ≤ st1.sampleCount then ({ st1.analyze with sampleCount := 0 }, true)
  else (st1, false)

/-- Model of `SpectralAnalyzer::process(L, R, numSamples)`: the per-sample loop with
the `ready` flag accumulated across the call. -/
def SpectralAnalyzer.processAux :
    SpectralAnalyzer → Bool → List (ℝ × ℝ) → SpectralAnalyzer × Bool
  | st, ready, [] => (st, ready)
  | st, ready, (l, r) :: rest =>
    SpectralAnalyzer.processAux (st.stepSample l r).1 (ready || (st.stepSample l r).2) rest

/-- Entry point of `process`: `ready` starts `false`. -/
def SpectralAnalyzer.process (st : SpectralAnalyzer) (samples : List (ℝ × ℝ)) :
    SpectralAnalyzer × Bool :=
  SpectralAnalyzer.processAux st false samples

/-- Analyzer state after feeding `samples` (the first component of
`process`, see `processAux_fst`). -/
def SpectralAnalyzer.processState : SpectralAnalyzer → List (ℝ × ℝ) → SpectralAnalyzer
  | st, [] => st
  | st, (l, r) :: rest => SpectralAnalyzer.processState (st.stepSample l r).1 rest

/-- Number of `analyze()` passes performed while feeding `samples`
(instrumentation over the same per-sample loop as `process`). -/
def SpectralAnalyzer.passCount : SpectralAnalyzer → List (ℝ × ℝ) → Nat
  | _, [] => 0
  | st, (l, r) :: rest =>
    (if (st.stepSample l r).2 then 1 else 0) +
      SpectralAnalyzer.passCount (st.stepSample l r).1 rest

/-- Number of calls of a call sequence whose `process` returned `true`,
threading the analyzer state through the calls. -/
def SpectralAnalyzer.trueReturnCount :
    SpectralAnalyzer → List (List (ℝ × ℝ)) → Nat
  | _, [] => 0
  | st, c :: cs =>
    (if (st.process c).2 then 1 else 0) +
      SpectralAnalyzer.trueReturnCount (st.process c).1 cs

/-- Total number of `analyze()` passes across a call sequence. -/
def SpectralAnalyzer.passTotal : SpectralAnalyzer → List (List (ℝ × ℝ)) → Nat
  | _, [] => 0
  | st, c :: cs => st.passCount c + SpectralAnalyzer.passTotal (st.process c).1 cs

end

theorem stepSample_fst_sampleCount (st : SpectralAnalyzer) (l r : ℝ) :
    ((st.stepSample l r).1).sampleCount =
      if kFFTSize / 4 ≤ st.sampleCount + 1 then 0 else st.sampleCount + 1 := by
  by_cases h : kFFTSize / 4 ≤ st.sampleCount + 1 <;>
    simp [SpectralAnalyzer.stepSample, stepWrite, h]

theorem stepSample_snd (st : SpectralAnalyzer) (l r : ℝ) :
    (st.stepSample l r).2 = decide (kFFTSize / 4 ≤ st.sampleCount + 1) := by
  by_cases h : kFFTSize / 4 ≤ st.sampleCount + 1 <;>
    simp [SpectralAnalyzer.stepSample, stepWrite, h]

theorem passCount_eq (st : SpectralAnalyzer) (samples : List (ℝ × ℝ))
    (h : st.sampleCount < kFFTSize / 4) :
    st.passCount samples = (st.sampleCount + samples.length) / (kFFTSize / 4) := by
  have hK : kFFTSize / 4 = 1024 := by decide
  rw [hK] at h ⊢
  induction samples generalizing st with
  | nil =>
    simp only [SpectralAnalyzer.passCount, List.length_nil, Nat.add_zero]
    omega
  | cons p rest ih =>
    obtain ⟨l, r⟩ := p
    have hsc := stepSample_fst_sampleCount st l r
    have hsb := stepSample_snd st l r
    rw [hK] at hsc hsb
    by_cases hc : 1024 ≤ st.sampleCount + 1
    · rw [if_pos hc] at hsc
      have hb : (st.stepSample l r).2 = true := by rw [hsb]; simpa using hc
      have := ih (st.stepSample l r).1 (by omega)
      simp only [SpectralAnalyzer.passCount, hb, if_true, this, hsc, List.length_cons]
      omega
    · rw [if_neg hc] at hsc
      have hb : (st.stepSample l r).2 = false := by rw [hsb]; simpa using hc
      have := ih (st.stepSample l r).1 (by omega)
      simp only [SpectralAnalyzer.passCount, hb, Bool.false_eq_true, if_false, this, hsc,
        List.length_cons]
      omega

theorem processAux_fst (st : SpectralAnalyzer) (ready : Bool) (samples : List (ℝ × ℝ)) :
    (SpectralAnalyzer.processAux st ready samples).1 = st.processState samples := by
  induction samples generalizing st ready with
  | nil => rfl
  | cons p rest ih =>
    obtain ⟨l, r⟩ := p
    simp only [SpectralAnalyzer.processAux, SpectralAnalyzer.processState, ih]

theorem processAux_snd (st : SpectralAnalyzer) (ready : Bool) (samples : List (ℝ × ℝ)) :
    (SpectralAnalyzer.processAux st ready samples).2 =
      (ready || decide (0 < st.passCount samples)) := by
  induction samples generalizing st ready with
  | nil => simp [SpectralAnalyzer.processAux, SpectralAnalyzer.passCount]
  | cons p rest ih =>
    obtain ⟨l, r⟩ := p
    simp only [SpectralAnalyzer.processAux, SpectralAnalyzer.passCount]
    rw [ih]
    rcases Bool.eq_false_or_eq_true (st.stepSample l r).2 with hb | hb
    · have hpos : 0 < 1 + ((st.stepSample l r).1).passCount rest := by omega
      simp [hb, hpos]
    · simp [hb]

theorem process_fst (st : SpectralAnalyzer) (samples : List (ℝ × ℝ)) :
    (st.process samples).1 = st.processState samples :=
  processAux_fst st false samples

theorem process_snd (st : SpectralAnalyzer) (samples : List (ℝ × ℝ)) :
    (st.process samples).2 = decide (0 < st.passCount samples) := by
  unfold SpectralAnalyzer.process
  rw [processAux_snd]
  simp

theorem processState_sampleCount (st : SpectralAnalyzer) (samples : List (ℝ × ℝ))
    (h : st.sampleCount < kFFTSize / 4) :
    (st.processState samples).sampleCount =
      (st.sampleCount + samples.length) % (kFFTSize / 4) := by
  have hK : kFFTSize / 4 = 1024 := by decide
  rw [hK] at h ⊢
  induction samples generalizing st with
  | nil =>
    simp only [SpectralAnalyzer.processState, List.length_nil, Nat.add_zero]
    omega
  | cons p rest ih =>
    obtain ⟨l, r⟩ := p
    have hsc := stepSample_fst_sampleCount st l r
    rw [hK] at hsc
    by_cases hc : 1024 ≤ st.sampleCount + 1
    · rw [if_pos hc] at hsc
      have := ih (st.stepSample l r).1 (by omega)
      simp only [SpectralAnalyzer.processState, this, hsc, List.length_cons]
      omega
    · rw [if_neg hc] at hsc
      have := ih (st.stepSample l r).1 (by omega)
      simp only [SpectralAnalyzer.processState, this, hsc, List.length_cons]
      omega

theorem passTotal_eq (st : SpectralAnalyzer) (chunks : List (List (ℝ × ℝ)))
    (h : st.sampleCount < kFFTSize / 4) :
    st.passTotal chunks =
      (st.sampleCount + (chunks.map List.length).sum) / (kFFTSize / 4) := by
  have hK : kFFTSize / 4 = 1024 := by decide
  rw [hK] at h ⊢
  induction chunks generalizing st with
  | nil =>
    simp only [SpectralAnalyzer.passTotal, List.map_nil, List.sum_nil, Nat.add_zero]
    omega
  | cons c cs ih =>
    have hpc := passCount_eq st c h
    have hsc : ((st.process c).1).sampleCount = (st.sampleCount + c.length) % 1024 := by
      rw [process_fst]
      have := processState_sampleCount st c h
      rwa [show kFFTSize / 4 = 1024 from by decide] at this
    rw [hK] at hpc
    have := ih (st.process c).1 (by omega)
    simp only [SpectralAnalyzer.passTotal, hpc, this, hsc, List.map_cons, List.sum_cons]
    omega

/-- C1 (amended): the number of analysis passes is one per `kFFTSize / 4`
accumulated samples and depends only on the total number of samples fed,
not on how they are chunked across calls; each individual `process` call
returns `true` iff at least one pass occurred during that call (so a
single call spanning several hops returns `true` once, not once per
hop). -/
theorem process_hop_schedule (st : SpectralAnalyzer)
    (chunks chunks2 : List (List (ℝ × ℝ)))
    (h : st.sampleCount < kFFTSize / 4)
    (hlen : (chunks.map List.length).sum = (chunks2.map List.length).sum) :
    st.passTotal chunks =
      (st.sampleCount + (chunks.map List.length).sum) / (kFFTSize / 4) ∧
    st.passTotal chunks = st.passTotal chunks2 ∧
    (∀ (st2 : SpectralAnalyzer) (c : List (ℝ × ℝ)),
      ((st2.process c).2 = true ↔ 0 < st2.passCount c)) := by
  refine ⟨passTotal_eq st chunks h, ?_, ?_⟩
  · rw [passTotal_eq st chunks h, passTotal_eq st chunks2 h, hlen]
  · intro st2 c
    rw [process_snd]
    simp

/-- Witness for C1 (amended): from the constructor state, one call of 2048
zero samples performs exactly two analysis passes. -/
theorem process_hop_schedule_witness :
    SpectralAnalyzer.init.passTotal [List.replicate 2048 ((0 : ℝ), (0 : ℝ))] = 2 := by
  have h0 : SpectralAnalyzer.init.sampleCount = 0 := rfl
  have h := process_hop_schedule SpectralAnalyzer.init
    [List.replicate 2048 ((0 : ℝ), (0 : ℝ))]
    [List.replicate 1024 ((0 : ℝ), (0 : ℝ)), List.replicate 1024 ((0 : ℝ), (0 : ℝ))]
    (by rw [h0]; decide)
    (by simp only [List.map_cons, List.map_nil, List.sum_cons, List.sum_nil,
          List.length_replicate]
        omega)
  rw [h.1, h0]
  simp only [List.map_cons, List.map_nil, List.sum_cons, List.sum_nil, List.length_replicate]
  decide

/-- C1 counterexample: the number of `true` returns does depend on the
chunking.  2048 zero samples fed as a single call yield one `true` return,
while the same samples fed as two 1024-sample calls yield two. -/
theorem process_true_return_chunking :
    SpectralAnalyzer.init.trueReturnCount [List.replicate 2048 ((0 : ℝ), (0 : ℝ))] ≠
      SpectralAnalyzer.init.trueReturnCount
        [List.replicate 1024 ((0 : ℝ), (0 : ℝ)), List.replicate 1024 ((0 : ℝ), (0 : ℝ))] := by
  have hK : kFFTSize / 4 = 1024 := by decide
  have h0 : SpectralAnalyzer.init.sampleCount = 0 := rfl
  have hlt : SpectralAnalyzer.init.sampleCount < kFFTSize / 4 := by rw [h0]; decide
  have hp1 : SpectralAnalyzer.init.passCount (List.replicate 2048 ((0 : ℝ), (0 : ℝ))) = 2 := by
    rw [passCount_eq _ _ hlt, h0, hK]
    simp only [List.length_replicate]
  have hb1 : (SpectralAnalyzer.init.process (List.replicate 2048 ((0 : ℝ), (0 : ℝ)))).2
      = true := by
    rw [process_snd, hp1]
    decide
  have hp2 : SpectralAnalyzer.init.passCount (List.replicate 1024 ((0 : ℝ), (0 : ℝ))) = 1 := by
    rw [passCount_eq _ _ hlt, h0, hK]
    simp only [List.length_replicate]
  have hb2 : (SpectralAnalyzer.init.process (List.replicate 1024 ((0 : ℝ), (0 : ℝ)))).2
      = true := by
    rw [process_snd, hp2]
    decide
  have hs1 : ((SpectralAnalyzer.init.process (List.replicate 1024 ((0 : ℝ), (0 : ℝ)))).1).sampleCount
      = 0 := by
    rw [process_fst, processState_sampleCount _ _ hlt, h0, hK]
    simp only [List.length_replicate]
  have hlt2 : ((SpectralAnalyzer.init.process (List.replicate 1024 ((0 : ℝ), (0 : ℝ)))).1).sampleCount
      < kFFTSize / 4 := by
    rw [hs1]
    decide
  have hp3 : ((SpectralAnalyzer.init.process (List.replicate 1024 ((0 : ℝ), (0 : ℝ)))).1).passCount
      (List.replicate 1024 ((0 : ℝ), (0 : ℝ))) = 1 := by
    rw [passCount_eq _ _ hlt2, hs1, hK]
    simp only [List.length_replicate]
  have hb3 : (((SpectralAnalyzer.init.process (List.replicate 1024 ((0 : ℝ), (0 : ℝ)))).1).process
      (List.replicate 1024 ((0 : ℝ), (0 : ℝ)))).2 = true := by
    rw [process_snd, hp3]
    decide
  simp only [SpectralAnalyzer.trueReturnCount, hb1, hb2, hb3, if_true]
  omega

/-- C7: `setNumBands n` clamps `n` to `[12, kMaxBands]` (never rejecting
any `n`), recomputes the band edges for the clamped count, and leaves the
ring buffers, write position, hop counter, results and sample rate
unchanged. -/
theorem setNumBands_spec (st : SpectralAnalyzer) (n : Int) :
    (st.setNumBands n).leftBuf = st.leftBuf ∧
    (st.setNumBands n).rightBuf = st.rightBuf ∧
    (st.setNumBands n).writePos = st.writePos ∧
    (st.setNumBands n).sampleCount = st.sampleCount ∧
    (st.setNumBands n).results = st.results ∧
    (st.setNumBands n).sampleRate = st.sampleRate ∧
    (n < 12 → (st.setNumBands n).activeBands = 12) ∧
    (12 ≤ n → n ≤ (kMaxBands : Int) → ((st.setNumBands n).activeBands : Int) = n) ∧
    ((kMaxBands : Int) < n → (st.setNumBands n).activeBands = kMaxBands) ∧
    (∀ i, i ≤ (st.setNumBands n).activeBands →
      (st.setNumBands n).bandBinsFloat i =
        bandEdge (st.setNumBands n).activeBands st.sampleRate i) ∧
    (∀ i, i ≤ (st.setNumBands n).activeBands →
      (st.setNumBands n).bandFreqs i = bandFreq (st.setNumBands n).activeBands i) := by
  have hk : (kMaxBands : Int) = 64 := by norm_num [kMaxBands]
  refine ⟨rfl, rfl, rfl, rfl, rfl, rfl, ?_, ?_, ?_, ?_, ?_⟩
  · intro h
    show (jlimit 12 (kMaxBands : Int) n).toNat = 12
    unfold jlimit
    rw [if_pos h]
    rfl
  · intro h1 h2
    show ((jlimit 12 (kMaxBands : Int) n).toNat : Int) = n
    unfold jlimit
    rw [if_neg (by omega), if_neg (by omega), Int.toNat_of_nonneg (by omega)]
  · intro h
    show (jlimit 12 (kMaxBands : Int) n).toNat = kMaxBands
    unfold jlimit
    rw [if_neg (by omega), if_pos h]
    simp [kMaxBands]
  · intro i hi
    show (if i ≤ (st.setNumBands n).activeBands then _ else _) = _
    rw [if_pos hi]
    rfl
  · intro i hi
    show (if i ≤ (st.setNumBands n).activeBands then _ else _) = _
    rw [if_pos hi]
    rfl

/-- Witness for C7 at the constructor state with `n = 100`: the count is
clamped to `kMaxBands` and the hop counter is untouched. -/
theorem setNumBands_spec_witness :
    (SpectralAnalyzer.init.setNumBands 100).activeBands = kMaxBands ∧
    (SpectralAnalyzer.init.setNumBands 100).sampleCount =
      SpectralAnalyzer.init.sampleCount := by
  obtain ⟨_, _, _, h4, _, _, _, _, h9, _, _⟩ := setNumBands_spec SpectralAnalyzer.init 100
  exact ⟨h9 (by decide), h4⟩

theorem bandFreq_strictMono (n : Nat) (hn : 0 < n) {i j : Nat} (hij : i < j) :
    bandFreq n i < bandFreq n j := by
  unfold bandFreq
  rw [Real.rpow_lt_rpow_left_iff (by norm_num : (1 : ℝ) < 10)]
  have hlog : Real.logb 10 20 < Real.logb 10 20000 :=
    Real.logb_lt_logb (by norm_num) (by norm_num) (by norm_num)
  have hn' : (0 : ℝ) < (n : ℝ) := by exact_mod_cast hn
  have ht : (i : ℝ) / (n : ℝ) < (j : ℝ) / (n : ℝ) := by
    rw [div_lt_div_iff_of_pos_right hn']
    exact_mod_cast hij
  have := mul_lt_mul_of_pos_right ht (sub_pos.mpr hlog)
  linarith

theorem bandEdge_strictMono (n : Nat) (sr : ℝ) (hn : 0 < n) (hsr : 0 < sr)
    {i j : Nat} (hij : i < j) : bandEdge n sr i < bandEdge n sr j := by
  unfold bandEdge
  rw [div_lt_div_iff_of_pos_right hsr]
  apply mul_lt_mul_of_pos_right (bandFreq_strictMono n hn hij)
  norm_num [kFFTSize]

theorem exists_band_cover (e : Nat → ℝ) (x : ℝ) (h0 : e 0 ≤ x) :
    ∀ n, 0 < n → x ≤ e n → ∃ k, k < n ∧ e k ≤ x ∧ x ≤ e (k + 1) := by
  intro n
  induction n with
  | zero => intro h _; omega
  | succ m ih =>
    intro _ h1
    rcases Nat.eq_zero_or_pos m with hm | hm
    · subst hm
      exact ⟨0, by omega, h0, h1⟩
    · by_cases hx : x ≤ e m
      · obtain ⟨k, hk, hka, hkb⟩ := ih hm hx
        exact ⟨k, by omega, hka, hkb⟩
      · exact ⟨m, by omega, le_of_lt (lt_of_not_le hx), h1⟩

/-- C8: after `calcBands`, the band edges are strictly increasing, adjacent
bands are contiguous (band `k`'s end edge is band `k+1`'s start edge), and
every point of the full edge span lies in some band's bin range (no
gaps). -/
theorem calcBands_band_edges (st : SpectralAnalyzer)
    (h12 : 12 ≤ st.activeBands) (h64 : st.activeBands ≤ kMaxBands)
    (hsr : 0 < st.sampleRate) :
    (∀ i j, i < j → j ≤ st.activeBands →
      st.calcBands.bandBinsFloat i < st.calcBands.bandBinsFloat j) ∧
    (∀ k, k + 1 ≤ st.activeBands →
      bandEndEdge st.calcBands k = bandStartEdge st.calcBands (k + 1)) ∧
    (∀ x, bandStartEdge st.calcBands 0 ≤ x →
      x ≤ bandEndEdge st.calcBands (st.activeBands - 1) →
      ∃ k, k < st.activeBands ∧ bandStartEdge st.calcBands k ≤ x ∧
        x ≤ bandEndEdge st.calcBands k) := by
  have hn : 0 < st.activeBands := by omega
  have hedge : ∀ i, i ≤ st.activeBands →
      st.calcBands.bandBinsFloat i = bandEdge st.activeBands st.sampleRate i := by
    intro i hi
    show (if i ≤ st.activeBands then _ else _) = _
    rw [if_pos hi]
  refine ⟨?_, ?_, ?_⟩
  · intro i j hij hj
    rw [hedge i (by omega), hedge j hj]
    exact bandEdge_strictMono st.activeBands st.sampleRate hn hsr hij
  · intro k _
    rfl
  · intro x hx0 hx1
    have hn1 : st.activeBands - 1 + 1 = st.activeBands := by omega
    have hx1' : x ≤ st.calcBands.bandBinsFloat st.activeBands := by
      have : bandEndEdge st.calcBands (st.activeBands - 1) =
          st.calcBands.bandBinsFloat st.activeBands := by
        unfold bandEndEdge
        rw [hn1]
      rwa [this] at hx1
    exact exists_band_cover st.calcBands.bandBinsFloat x hx0 st.activeBands hn hx1'

/-- Witness for C8 at the constructor state (24 bands at 44100 Hz): edge 0
is strictly below edge 24. -/
theorem calcBands_band_edges_witness :
    SpectralAnalyzer.init.calcBands.bandBinsFloat 0 <
      SpectralAnalyzer.init.calcBands.bandBinsFloat 24 := by
  have h := calcBands_band_edges SpectralAnalyzer.init (by decide) (by decide)
    (by show (0 : ℝ) < (44100 : ℝ); norm_num)
  exact h.1 0 24 (by decide) (by decide)

theorem jlimit_nonneg {lo hi x : ℝ} (hlo : 0 ≤ lo) (hhi : 0 ≤ hi) :
    0 ≤ jlimit lo hi x := by
  unfold jlimit
  split_ifs with h1 h2
  · exact hlo
  · exact hhi
  · exact le_trans hlo (le_of_not_lt h1)

theorem bandRMS_nonneg (mag : Nat → ℝ) (fftNorm a b : ℝ) :
    0 ≤ bandRMS mag fftNorm a b :=
  Real.sqrt_nonneg _

theorem dftMag_zero (v : Nat → ℝ) (hv : ∀ i, v i = 0) (k : Nat) : dftMag v k = 0 := by
  simp [dftMag, hv]

theorem bandRMS_zero (mag : Nat → ℝ) (h : ∀ k, mag k = 0) (fftNorm a b : ℝ) :
    bandRMS mag fftNorm a b = 0 := by
  have hE : bandEnergySum mag fftNorm a b = 0 := by
    apply Finset.sum_eq_zero
    intro bin _
    rw [h]
    split <;> ring
  unfold bandRMS
  rw [hE]
  split <;> simp

theorem analyze_results_eq (st : SpectralAnalyzer) (b : Nat) :
    st.analyze.results b =
      if b < st.activeBands then
        ((st.results b).1 * 0.88 +
           bandRMS (dftMag (windowedBuf st.writePos st.leftBuf)) (4 / (kFFTSize : ℝ))
             (bandStartEdge st b) (bandEndEdge st b) *
           jlimit (0.3 : ℝ) 3
             (Real.sqrt ((st.bandFreqs b + st.bandFreqs (b + 1)) * 0.5 / 1000)) *
           (1 - 0.88),
         (st.results b).2 * 0.88 +
           bandRMS (dftMag (windowedBuf st.writePos st.rightBuf)) (4 / (kFFTSize : ℝ))
             (bandStartEdge st b) (bandEndEdge st b) *
           jlimit (0.3 : ℝ) 3
             (Real.sqrt ((st.bandFreqs b + st.bandFreqs (b + 1)) * 0.5 / 1000)) *
           (1 - 0.88))
      else st.results b := rfl

theorem analyze_leftBuf (st : SpectralAnalyzer) : st.analyze.leftBuf = st.leftBuf := rfl

theorem analyze_rightBuf (st : SpectralAnalyzer) : st.analyze.rightBuf = st.rightBuf := rfl

theorem analyze_zero (st : SpectralAnalyzer)
    (hL : ∀ i, st.leftBuf i = 0) (hR : ∀ i, st.rightBuf i = 0)
    (hres : ∀ b, st.results b = (0, 0)) (b : Nat) :
    st.analyze.results b = (0, 0) := by
  rw [analyze_results_eq]
  split
  · have hWL : ∀ i, windowedBuf st.writePos st.leftBuf i = 0 := by
      intro i
      unfold windowedBuf
      rw [hL]
      ring
    have hWR : ∀ i, windowedBuf st.writePos st.rightBuf i = 0 := by
      intro i
      unfold windowedBuf
      rw [hR]
      ring
    rw [bandRMS_zero _ (dftMag_zero _ hWL), bandRMS_zero _ (dftMag_zero _ hWR), hres b]
    simp
  · exact hres b

theorem analyze_nonneg (st : SpectralAnalyzer)
    (hres : ∀ b, 0 ≤ (st.results b).1 ∧ 0 ≤ (st.results b).2) (b : Nat) :
    0 ≤ (st.analyze.results b).1 ∧ 0 ≤ (st.analyze.results b).2 := by
  rw [analyze_results_eq]
  split
  · constructor
    · exact add_nonneg (mul_nonneg (hres b).1 (by norm_num))
        (mul_nonneg (mul_nonneg (bandRMS_nonneg _ _ _ _)
          (jlimit_nonneg (by norm_num) (by norm_num))) (by norm_num))
    · exact add_nonneg (mul_nonneg (hres b).2 (by norm_num))
        (mul_nonneg (mul_nonneg (bandRMS_nonneg _ _ _ _)
          (jlimit_nonneg (by norm_num) (by norm_num))) (by norm_num))
  · exact hres b

theorem stepSample_fst_results (st : SpectralAnalyzer) (l r : ℝ) :
    ((st.stepSample l r).1).results =
      if kFFTSize / 4 ≤ st.sampleCount + 1 then (stepWrite st l r).analyze.results
      else st.results := by
  by_cases h : kFFTSize / 4 ≤ st.sampleCount + 1 <;>
    simp [SpectralAnalyzer.stepSample, stepWrite, h]

theorem stepSample_fst_leftBuf (st : SpectralAnalyzer) (l r : ℝ) :
    ((st.stepSample l r).1).leftBuf = Function.update st.leftBuf st.writePos l := by
  by_cases h : kFFTSize / 4 ≤ st.sampleCount + 1 <;>
    simp [SpectralAnalyzer.stepSample, stepWrite, analyze_leftBuf, h]

theorem stepSample_fst_rightBuf (st : SpectralAnalyzer) (l r : ℝ) :
    ((st.stepSample l r).1).rightBuf = Function.update st.rightBuf st.writePos r := by
  by_cases h : kFFTSize / 4 ≤ st.sampleCount + 1 <;>
    simp [SpectralAnalyzer.stepSample, stepWrite, analyze_rightBuf, h]

theorem stepSample_results_nonneg (st : SpectralAnalyzer) (l r : ℝ)
    (hres : ∀ b, 0 ≤ (st.results b).1 ∧ 0 ≤ (st.results b).2) (b : Nat) :
    0 ≤ (((st.stepSample l r).1).results b).1 ∧
    0 ≤ (((st.stepSample l r).1).results b).2 := by
  rw [stepSample_fst_results]
  split
  · exact analyze_nonneg (stepWrite st l r) (fun b' => hres b') b
  · exact hres b

theorem stepSample_zero (st : SpectralAnalyzer)
    (hL : ∀ i, st.leftBuf i = 0) (hR : ∀ i, st.rightBuf i = 0)
    (hres : ∀ b, st.results b = (0, 0)) :
    (∀ i, ((st.stepSample 0 0).1).leftBuf i = 0) ∧
    (∀ i, ((st.stepSample 0 0).1).rightBuf i = 0) ∧
    (∀ b, ((st.stepSample 0 0).1).results b = (0, 0)) := by
  have hL1 : ∀ i, Function.update st.leftBuf st.writePos (0 : ℝ) i = 0 := by
    intro i
    rw [Function.update_apply]
    split <;> simp [hL]
  have hR1 : ∀ i, Function.update st.rightBuf st.writePos (0 : ℝ) i = 0 := by
    intro i
    rw [Function.update_apply]
    split <;> simp [hR]
  refine ⟨?_, ?_, ?_⟩
  · intro i
    rw [stepSample_fst_leftBuf]
    exact hL1 i
  · intro i
    rw [stepSample_fst_rightBuf]
    exact hR1 i
  · intro b
    rw [stepSample_fst_results]
    split
    · exact analyze_zero (stepWrite st 0 0) hL1 hR1 (fun b' => hres b') b
    · exact hres b

theorem processState_zero (st : SpectralAnalyzer) (samples : List (ℝ × ℝ))
    (hsamp : ∀ p ∈ samples, p = ((0 : ℝ), (0 : ℝ)))
    (hL : ∀ i, st.leftBuf i = 0) (hR : ∀ i, st.rightBuf i = 0)
    (hres : ∀ b, st.results b = (0, 0)) :
    ∀ b, (st.processState samples).results b = (0, 0) := by
  induction samples generalizing st with
  | nil => exact hres
  | cons p rest ih =>
    obtain ⟨l, r⟩ := p
    have hp := hsamp (l, r) (List.mem_cons_self _ _)
    injection hp with hl hr
    subst hl
    subst hr
    have h3 := stepSample_zero st hL hR hres
    simp only [SpectralAnalyzer.processState]
    exact ih (st.stepSample 0 0).1
      (fun q hq => hsamp q (List.mem_cons_of_mem _ hq)) h3.1 h3.2.1 h3.2.2

theorem processState_results_nonneg (st : SpectralAnalyzer) (samples : List (ℝ × ℝ))
    (hres : ∀ b, 0 ≤ (st.results b).1 ∧ 0 ≤ (st.results b).2) :
    ∀ b, 0 ≤ ((st.processState samples).results b).1 ∧
         0 ≤ ((st.processState samples).results b).2 := by
  induction samples generalizing st with
  | nil => exact hres
  | cons p rest ih =>
    obtain ⟨l, r⟩ := p
    simp only [SpectralAnalyzer.processState]
    exact ih (st.stepSample l r).1 (fun b => stepSample_results_nonneg st l r hres b)

/-- C9: from the cleared state, feeding any number of all-zero samples
through `process` leaves every band's smoothed levels exactly zero; and
from any state with non-negative smoothed levels, processing arbitrary
samples keeps every band's smoothed levels non-negative. -/
theorem process_silence_and_nonneg (st : SpectralAnalyzer) (samples : List (ℝ × ℝ)) :
    ((∀ p ∈ samples, p = ((0 : ℝ), (0 : ℝ))) →
      ∀ b, ((st.clear.process samples).1.results b) = (0, 0)) ∧
    ((∀ b, 0 ≤ (st.results b).1 ∧ 0 ≤ (st.results b).2) →
      ∀ b, 0 ≤ ((st.process samples).1.results b).1 ∧
           0 ≤ ((st.process samples).1.results b).2) := by
  constructor
  · intro hz b
    rw [process_fst]
    exact processState_zero st.clear samples hz (fun _ => rfl) (fun _ => rfl)
      (fun _ => rfl) b
  · intro hres b
    rw [process_fst]
    exact processState_results_nonneg st samples hres b

/-- Witness for C9: one zero sample fed to the cleared constructor state
keeps all results at zero, and the constructor state's results are
non-negative and stay so. -/
theorem process_silence_and_nonneg_witness :
    (∀ b, ((SpectralAnalyzer.init.clear.process [((0 : ℝ), (0 : ℝ))]).1.results b)
      = (0, 0)) ∧
    (∀ b, 0 ≤ ((SpectralAnalyzer.init.process [((0 : ℝ), (0 : ℝ))]).1.results b).1 ∧
          0 ≤ ((SpectralAnalyzer.init.process [((0 : ℝ), (0 : ℝ))]).1.results b).2) := by
  have h := process_silence_and_nonneg SpectralAnalyzer.init [((0 : ℝ), (0 : ℝ))]
  refine ⟨h.1 ?_, h.2 ?_⟩
  · intro p hp
    simpa using hp
  · intro b
    exact ⟨le_refl _, le_refl _⟩
